import Mathlib

set_option linter.unusedVariables false

namespace AgentUniverse

/-! Shallow embedding of agentUniverse's peer planner loop controller
(src/agentuniverse/agent/plan/planner/peer_planner/peer_planner.py) and of the
chat memory pruning code (src/agentuniverse/agent/memory/chat_memory.py).

Sub-agents, the memory collaborator and the token counter are external
collaborators of this code; they are modelled as function parameters.  A
sub-agent behaviour maps its invocation index to the result of that run call
(indexing by invocation count abstracts the evolving shared input_object: any
dependence of an agent on the mutated context is subsumed by quantifying over
behaviours).  Observable side effects (stage invocations, calls reaching the
memory collaborator's add) are collected in an event trace. -/

/-- Role of a chat message (the source uses the strings "human" and "ai"). -/
inductive Role where
| human
| ai
deriving DecidableEq, BEq

/-- A chat message as built by PeerPlanner.add_peer_memory and stored by
ChatMemory: Message(type=..., content=...).  Content may be Python None. -/
structure Message where
  type : Role
  content : Option String
deriving DecidableEq, BEq

/-- The fields of a stage result (OutputObject) that the peer planner reads:
get_data("output") for memory persistence and get_data("score") for the
reviewer acceptance test.  payload keeps results of distinct invocations
distinguishable; other OutputObject data plays no role in the claims. -/
structure StageResult where
  output : Option String := none
  score : Option Int := none
  payload : Nat := 0
deriving DecidableEq

inductive Stage where
| planning
| executing
| expressing
| reviewing
deriving DecidableEq, BEq

/-- Observable effect of a run: a stage of the loop body executed, or a call
reached the memory collaborator's add operation with the given messages. -/
inductive Event where
| invoke (stage : Stage)
| memAdd (messages : List Message)
deriving DecidableEq

def Event.isMemAdd : Event → Bool
  | Event.memAdd _ => true
  | _ => false

def Event.isInvoke (st : Stage) : Event → Bool
  | Event.invoke s => s == st
  | _ => false

/-- Number of times the given stage executed in a trace. -/
def countStage (evs : List Event) (st : Stage) : Nat :=
  evs.countP (Event.isInvoke st)

/-- Number of calls that reached the memory collaborator's add operation. -/
def countMemAdd (evs : List Event) : Nat :=
  evs.countP Event.isMemAdd

/-- The snapshot dict appended to loopResults on each pass (lines 135, 158,
167 of peer_planner.py).  none models the falsy initial empty dict. -/
structure IterationRecord where
  planning_result : Option StageResult
  executing_result : Option StageResult
  expressing_result : Option StageResult
  reviewing_result : Option StageResult
deriving DecidableEq

/-- A sub-agent's behaviour: the result of its n-th run call (0-indexed),
either a StageResult or a raised exception (Except.error). -/
abbrev AgentBehavior := Nat → Except String StageResult

/-- The resolved sub-agent handles (agents.get(...) at lines 114-117); none
models an absent role. -/
structure Agents where
  planning : Option AgentBehavior := none
  executing : Option AgentBehavior := none
  expressing : Option AgentBehavior := none
  reviewing : Option AgentBehavior := none

/-- The planner configuration fields read at lines 108-110, with the module
defaults.  eval_threshold is read from configuration but, as in the source,
never used by the loop. -/
structure PlannerConfig where
  retry_count : Nat := 2
  jump_step : String := "expressing"
  eval_threshold : Int := 60

/-- The planner input dict (agent_input), modelled as an association list;
Python dict truthiness corresponds to non-emptiness. -/
abbrev AgentInput := List (String × String)

/-- agent_input.get(key): first value bound to the key, if any. -/
def dictGet (d : AgentInput) (k : String) : Option String :=
  (d.find? (fun p => p.1 == k)).map (fun p => p.2)

/-- PeerPlanner.add_peer_memory (lines 178-190).  Returns the add calls that
reach the memory collaborator: one call with the two constructed messages when
the truthiness guard `peer_memory and agent_input and peer_result` passes,
none otherwise.  peer_result is the expressing result variable at the call
site (none models the falsy initial empty dict). -/
def add_peer_memory (peer_memory : Bool) (agent_input : AgentInput)
    (peer_result : Option StageResult) : List Event :=
  match peer_result with
  | none => []
  | some r =>
    if peer_memory && !agent_input.isEmpty then
      [Event.memAdd [{ type := Role.human, content := dictGet agent_input "input" },
                     { type := Role.ai, content := r.output }]]
    else []

/-- PeerPlanner.planning_agent_run (lines 192-221): with no planning agent it
degrades to a default OutputObject (a truthy result whose framework holds the
raw input; only claim-relevant fields are kept), otherwise it runs the agent. -/
def planning_agent_run (agent : Option AgentBehavior) (agent_input : AgentInput)
    (n : Nat) : Except String StageResult :=
  match agent with
  | none => Except.ok {}
  | some f => f n

/-- PeerPlanner.executing_agent_run (lines 223-254): an absent agent degrades
to the empty OutputObject (still truthy). -/
def executing_agent_run (agent : Option AgentBehavior) (n : Nat) :
    Except String StageResult :=
  match agent with
  | none => Except.ok {}
  | some f => f n

/-- PeerPlanner.expressing_agent_run (lines 256-283): an absent agent degrades
to the empty OutputObject (still truthy). -/
def expressing_agent_run (agent : Option AgentBehavior) (n : Nat) :
    Except String StageResult :=
  match agent with
  | none => Except.ok {}
  | some f => f n

/-- The mutable locals of agents_run between passes.  The four result slots
start as falsy empty dicts (none); counts record how often each stage wrapper
has executed, indexing the corresponding behaviour. -/
structure LoopState where
  planning_result : Option StageResult := none
  executing_result : Option StageResult := none
  expressing_result : Option StageResult := none
  reviewing_result : Option StageResult := none
  loopResults : List IterationRecord := []
  planningCount : Nat := 0
  executingCount : Nat := 0
  expressingCount : Nat := 0
  reviewingCount : Nat := 0
deriving DecidableEq

def LoopState.init : LoopState := {}

/-- The acceptance test of line 157:
`reviewing_result.get_data('score') and reviewing_result.get_data('score') >= 100`,
i.e. score truthy (present and nonzero) and at least the literal 100. -/
def scoreAccept : Option Int → Bool
  | none => false
  | some s => (!(s == 0)) && decide (100 ≤ s)

/-- Line 123-124: `if not planning_result or jump_step == "planning"`. -/
def planningStep (ag : Agents) (jump_step : String) (agent_input : AgentInput)
    (s : LoopState) : List Event × Except String LoopState :=
  if s.planning_result.isNone || jump_step == "planning" then
    match planning_agent_run ag.planning agent_input s.planningCount with
    | Except.error e => ([Event.invoke Stage.planning], Except.error e)
    | Except.ok r => ([Event.invoke Stage.planning],
        Except.ok { s with planning_result := some r,
                           planningCount := s.planningCount + 1 })
  else ([], Except.ok s)

/-- Line 126-127: `if not executing_result or jump_step in ["planning", "executing"]`. -/
def executingStep (ag : Agents) (jump_step : String) (s : LoopState) :
    List Event × Except String LoopState :=
  if s.executing_result.isNone || (["planning", "executing"].contains jump_step) then
    match executing_agent_run ag.executing s.executingCount with
    | Except.error e => ([Event.invoke Stage.executing], Except.error e)
    | Except.ok r => ([Event.invoke Stage.executing],
        Except.ok { s with executing_result := some r,
                           executingCount := s.executingCount + 1 })
  else ([], Except.ok s)

/-- Line 129-130: `if not expressing_result or jump_step in
["planning", "executing", "expressing"]`. -/
def expressingStep (ag : Agents) (jump_step : String) (s : LoopState) :
    List Event × Except String LoopState :=
  if s.expressing_result.isNone ||
      (["planning", "executing", "expressing"].contains jump_step) then
    match expressing_agent_run ag.expressing s.expressingCount with
    | Except.error e => ([Event.invoke Stage.expressing], Except.error e)
    | Except.ok r => ([Event.invoke Stage.expressing],
        Except.ok { s with expressing_result := some r,
                           expressingCount := s.expressingCount + 1 })
  else ([], Except.ok s)

/-- Outcome of one pass of the for-loop body: an uncaught exception (err), a
return from inside the loop (ret, lines 144 and 165), or fall-through to the
next iteration (next). -/
inductive PassResult where
| err (events : List Event) (msg : String)
| ret (events : List Event) (records : List IterationRecord)
| next (events : List Event) (s : LoopState)
deriving DecidableEq

def PassResult.events : PassResult → List Event
  | PassResult.err ev _ => ev
  | PassResult.ret ev _ => ev
  | PassResult.next ev s => ev

/-- The accumulated record list after the pass, when no exception occurred. -/
def PassResult.records : PassResult → Option (List IterationRecord)
  | PassResult.err ev e => none
  | PassResult.ret ev recs => some recs
  | PassResult.next ev s => some s.loopResults

/-- Lines 132-172: the reviewing part of the loop body.  If the reviewing slot
is falsy or jump_step reaches the reviewing stage: with no reviewing agent,
append the snapshot, persist memory and return (lines 133-144); otherwise run
the reviewer and either return on an accepting score (lines 157-165) or append
and continue (lines 166-172). -/
def reviewPhase (ag : Agents) (jump_step : String) (mem : Bool)
    (agent_input : AgentInput) (s : LoopState) : PassResult :=
  if s.reviewing_result.isNone ||
      (["planning", "executing", "expressing", "reviewing"].contains jump_step) then
    match ag.reviewing with
    | none =>
      PassResult.ret
        (if mem then add_peer_memory mem agent_input s.expressing_result else [])
        (s.loopResults ++
          [⟨s.planning_result, s.executing_result, s.expressing_result, s.reviewing_result⟩])
    | some f =>
      match f s.reviewingCount with
      | Except.error e => PassResult.err [Event.invoke Stage.reviewing] e
      | Except.ok r =>
        if scoreAccept r.score then
          PassResult.ret [Event.invoke Stage.reviewing]
            (s.loopResults ++
              [⟨s.planning_result, s.executing_result, s.expressing_result, some r⟩])
        else
          PassResult.next [Event.invoke Stage.reviewing]
            { s with reviewing_result := some r,
                     reviewingCount := s.reviewingCount + 1,
                     loopResults := s.loopResults ++
                       [⟨s.planning_result, s.executing_result, s.expressing_result, some r⟩] }
  else PassResult.next [] s

/-- Lines 123-130: the planning, executing and expressing parts of one pass of
the loop body, with their events in execution order. -/
def stagesPhase (ag : Agents) (jump_step : String) (agent_input : AgentInput)
    (s : LoopState) : List Event × Except String LoopState :=
  match planningStep ag jump_step agent_input s with
  | (ev1, Except.error e) => (ev1, Except.error e)
  | (ev1, Except.ok s1) =>
    match executingStep ag jump_step s1 with
    | (ev2, Except.error e) => (ev1 ++ ev2, Except.error e)
    | (ev2, Except.ok s2) =>
      match expressingStep ag jump_step s2 with
      | (ev3, Except.error e) => (ev1 ++ ev2 ++ ev3, Except.error e)
      | (ev3, Except.ok s3) => (ev1 ++ ev2 ++ ev3, Except.ok s3)

/-- One pass of the for-loop body (lines 121-172). -/
def runPass (ag : Agents) (jump_step : String) (mem : Bool) (agent_input : AgentInput)
    (s : LoopState) : PassResult :=
  match stagesPhase ag jump_step agent_input s with
  | (ev, Except.error e) => PassResult.err ev e
  | (ev, Except.ok s3) =>
    match reviewPhase ag jump_step mem agent_input s3 with
    | PassResult.err ev' e => PassResult.err (ev ++ ev') e
    | PassResult.ret ev' recs => PassResult.ret (ev ++ ev') recs
    | PassResult.next ev' s4 => PassResult.next (ev ++ ev') s4

/-- The outcome of agents_run: the event trace, the returned record list (the
value of result["result"]) or the uncaught exception, and a ghost flag telling
whether the run returned from inside the loop (lines 144/165) rather than
falling through it (line 176). -/
structure RunOutcome where
  events : List Event
  result : Except String (List IterationRecord)
  early : Bool

/-- The for-loop of lines 121-172 followed by the fall-through epilogue of
lines 173-176 (`result["result"] = loopResults; if memory: add_peer_memory`). -/
def runLoop (ag : Agents) (jump_step : String) (mem : Bool) (agent_input : AgentInput) :
    Nat → LoopState → RunOutcome
  | 0, s =>
    { events := if mem then add_peer_memory mem agent_input s.expressing_result else [],
      result := Except.ok s.loopResults,
      early := false }
  | Nat.succ n, s =>
    match runPass ag jump_step mem agent_input s with
    | PassResult.err evs e => { events := evs, result := Except.error e, early := false }
    | PassResult.ret evs records => { events := evs, result := Except.ok records, early := true }
    | PassResult.next evs s' =>
      let rest := runLoop ag jump_step mem agent_input n s'
      { events := evs ++ rest.events, result := rest.result, early := rest.early }

/-- PeerPlanner.agents_run (lines 87-176).  mem tells whether handle_memory
resolved a memory collaborator.  eval_threshold is read from the configuration
at line 110 but never used afterwards, exactly as in the source. -/
def agents_run (ag : Agents) (cfg : PlannerConfig) (mem : Bool)
    (agent_input : AgentInput) : RunOutcome :=
  runLoop ag cfg.jump_step mem agent_input cfg.retry_count LoopState.init

/-- jump_step values the configuration schema allows. -/
def validJump (j : String) : Prop :=
  j = "planning" ∨ j = "executing" ∨ j = "expressing" ∨ j = "reviewing"

/-! ## ChatMemory (src/agentuniverse/agent/memory/chat_memory.py) -/

/-- ChatMemory.prune's eviction loop (lines 107-109): while the token count
exceeds max_tokens, pop the head and recount.  none models the unguarded
IndexError raised by `prune_messages.pop(0)` on an empty list.  count is the
token count of a message list.

Modelled from the spec: count stands for
`llm.get_num_tokens(get_memory_string(messages))`; get_num_tokens and
get_memory_string live outside src and the spec treats token counting as a
collaborator concern, so it is abstracted to one function parameter. -/
def pruneGo (count : List Message → Nat) (max_tokens : Nat) :
    List Message → Option (List Message)
  | [] => if count [] ≤ max_tokens then some [] else none
  | m :: t =>
    if count (m :: t) ≤ max_tokens then some (m :: t) else pruneGo count max_tokens t

/-- ChatMemory.prune (lines 97-110).  llm carries the token counting function
when an llm is set (see pruneGo for its modelling). -/
def prune (llm : Option (List Message → Nat)) (max_tokens : Nat)
    (message_list : List Message) : Option (List Message) :=
  if message_list.length < 1 then some []
  else
    match llm with
    | none => some message_list
    | some count =>
      if max_tokens < count message_list then pruneGo count max_tokens message_list
      else some message_list

/-- The ChatMemory attributes the claims touch. -/
structure ChatMemoryState where
  llm : Option (List Message → Nat)
  max_tokens : Nat
  messages : List Message

/-- ChatMemory.get (lines 89-91): returns prune(self.messages) together with
the state after the call.  The source copies the list (`message_list[:]` at
line 102) and pops only from the copy, so the stored messages are unchanged. -/
def ChatMemory_get (st : ChatMemoryState) : Option (List Message) × ChatMemoryState :=
  (prune st.llm st.max_tokens st.messages, st)

/-! ## Case-analysis lemmas for the loop body -/

lemma planningStep_cases (ag : Agents) (jump : String) (inp : AgentInput) (s : LoopState) :
    planningStep ag jump inp s = ([], Except.ok s) ∨
    (∃ e, planning_agent_run ag.planning inp s.planningCount = Except.error e ∧
      planningStep ag jump inp s = ([Event.invoke Stage.planning], Except.error e)) ∨
    (∃ r, planning_agent_run ag.planning inp s.planningCount = Except.ok r ∧
      planningStep ag jump inp s = ([Event.invoke Stage.planning], Except.ok
        { s with planning_result := some r, planningCount := s.planningCount + 1 })) := by
  unfold planningStep
  split
  · split
    · rename_i e h
      exact Or.inr (Or.inl ⟨e, h, rfl⟩)
    · rename_i r h
      exact Or.inr (Or.inr ⟨r, h, rfl⟩)
  · exact Or.inl rfl

lemma executingStep_cases (ag : Agents) (jump : String) (s : LoopState) :
    executingStep ag jump s = ([], Except.ok s) ∨
    (∃ e, executing_agent_run ag.executing s.executingCount = Except.error e ∧
      executingStep ag jump s = ([Event.invoke Stage.executing], Except.error e)) ∨
    (∃ r, executing_agent_run ag.executing s.executingCount = Except.ok r ∧
      executingStep ag jump s = ([Event.invoke Stage.executing], Except.ok
        { s with executing_result := some r, executingCount := s.executingCount + 1 })) := by
  unfold executingStep
  split
  · split
    · rename_i e h
      exact Or.inr (Or.inl ⟨e, h, rfl⟩)
    · rename_i r h
      exact Or.inr (Or.inr ⟨r, h, rfl⟩)
  · exact Or.inl rfl

lemma expressingStep_cases (ag : Agents) (jump : String) (s : LoopState) :
    expressingStep ag jump s = ([], Except.ok s) ∨
    (∃ e, expressing_agent_run ag.expressing s.expressingCount = Except.error e ∧
      expressingStep ag jump s = ([Event.invoke Stage.expressing], Except.error e)) ∨
    (∃ r, expressing_agent_run ag.expressing s.expressingCount = Except.ok r ∧
      expressingStep ag jump s = ([Event.invoke Stage.expressing], Except.ok
        { s with expressing_result := some r, expressingCount := s.expressingCount + 1 })) := by
  unfold expressingStep
  split
  · split
    · rename_i e h
      exact Or.inr (Or.inl ⟨e, h, rfl⟩)
    · rename_i r h
      exact Or.inr (Or.inr ⟨r, h, rfl⟩)
  · exact Or.inl rfl

/-- The condition guarding the reviewing part of the loop body. -/
def revCond (jump : String) (s : LoopState) : Bool :=
  s.reviewing_result.isNone ||
    (["planning", "executing", "expressing", "reviewing"].contains jump)

lemma revCond_true_of_valid (jump : String) (hjump : validJump jump) (s : LoopState) :
    revCond jump s = true := by
  have h : (["planning", "executing", "expressing", "reviewing"].contains jump) = true := by
    rcases hjump with h | h | h | h <;> subst h <;> rfl
  unfold revCond
  rw [h, Bool.or_true]

lemma reviewPhase_cases (ag : Agents) (jump : String) (mem : Bool) (inp : AgentInput)
    (s : LoopState) :
    (revCond jump s = false ∧ reviewPhase ag jump mem inp s = PassResult.next [] s) ∨
    (ag.reviewing = none ∧ reviewPhase ag jump mem inp s = PassResult.ret
      (if mem then add_peer_memory mem inp s.expressing_result else [])
      (s.loopResults ++
        [⟨s.planning_result, s.executing_result, s.expressing_result, s.reviewing_result⟩])) ∨
    (∃ f e, ag.reviewing = some f ∧ f s.reviewingCount = Except.error e ∧
      reviewPhase ag jump mem inp s = PassResult.err [Event.invoke Stage.reviewing] e) ∨
    (∃ f r, ag.reviewing = some f ∧ f s.reviewingCount = Except.ok r ∧
      scoreAccept r.score = true ∧
      reviewPhase ag jump mem inp s = PassResult.ret [Event.invoke Stage.reviewing]
        (s.loopResults ++
          [⟨s.planning_result, s.executing_result, s.expressing_result, some r⟩])) ∨
    (∃ f r, ag.reviewing = some f ∧ f s.reviewingCount = Except.ok r ∧
      scoreAccept r.score = false ∧
      reviewPhase ag jump mem inp s = PassResult.next [Event.invoke Stage.reviewing]
        { s with reviewing_result := some r,
                 reviewingCount := s.reviewingCount + 1,
                 loopResults := s.loopResults ++
                   [⟨s.planning_result, s.executing_result, s.expressing_result, some r⟩] }) := by
  unfold reviewPhase
  split
  · split
    · rename_i hrev
      exact Or.inr (Or.inl ⟨hrev, rfl⟩)
    · rename_i f hrev
      split
      · rename_i e hf
        exact Or.inr (Or.inr (Or.inl ⟨f, e, hrev, hf, rfl⟩))
      · rename_i r hf
        split
        · rename_i hacc
          exact Or.inr (Or.inr (Or.inr (Or.inl ⟨f, r, hrev, hf, hacc, rfl⟩)))
        · rename_i hacc
          exact Or.inr (Or.inr (Or.inr (Or.inr
            ⟨f, r, hrev, hf, Bool.not_eq_true _ ▸ hacc, rfl⟩)))
  · rename_i hc
    exact Or.inl ⟨Bool.not_eq_true _ ▸ hc, rfl⟩

/-- Whether a stage of the three leading steps ran or was skipped, it succeeds
with an unchanged frame (everything except its own slot and counter), or it
fails with its wrapper's error. -/
lemma planningStep_facts (ag : Agents) (jump : String) (inp : AgentInput) (s : LoopState) :
    (∃ ev s', planningStep ag jump inp s = (ev, Except.ok s') ∧ countMemAdd ev = 0 ∧
      s'.executing_result = s.executing_result ∧ s'.expressing_result = s.expressing_result ∧
      s'.reviewing_result = s.reviewing_result ∧ s'.loopResults = s.loopResults ∧
      s'.executingCount = s.executingCount ∧ s'.expressingCount = s.expressingCount ∧
      s'.reviewingCount = s.reviewingCount) ∨
    (∃ e, planning_agent_run ag.planning inp s.planningCount = Except.error e ∧
      planningStep ag jump inp s = ([Event.invoke Stage.planning], Except.error e)) := by
  rcases planningStep_cases ag jump inp s with h | ⟨e, hpe, h⟩ | ⟨r, hp, h⟩
  · exact Or.inl ⟨[], s, h, rfl, rfl, rfl, rfl, rfl, rfl, rfl, rfl⟩
  · exact Or.inr ⟨e, hpe, h⟩
  · exact Or.inl ⟨[Event.invoke Stage.planning], _, h, rfl, rfl, rfl, rfl, rfl, rfl, rfl, rfl⟩

lemma executingStep_facts (ag : Agents) (jump : String) (s : LoopState) :
    (∃ ev s', executingStep ag jump s = (ev, Except.ok s') ∧ countMemAdd ev = 0 ∧
      s'.planning_result = s.planning_result ∧ s'.expressing_result = s.expressing_result ∧
      s'.reviewing_result = s.reviewing_result ∧ s'.loopResults = s.loopResults ∧
      s'.planningCount = s.planningCount ∧ s'.expressingCount = s.expressingCount ∧
      s'.reviewingCount = s.reviewingCount) ∨
    (∃ e, executing_agent_run ag.executing s.executingCount = Except.error e ∧
      executingStep ag jump s = ([Event.invoke Stage.executing], Except.error e)) := by
  rcases executingStep_cases ag jump s with h | ⟨e, hee, h⟩ | ⟨r, he, h⟩
  · exact Or.inl ⟨[], s, h, rfl, rfl, rfl, rfl, rfl, rfl, rfl, rfl⟩
  · exact Or.inr ⟨e, hee, h⟩
  · exact Or.inl ⟨[Event.invoke Stage.executing], _, h, rfl, rfl, rfl, rfl, rfl, rfl, rfl, rfl⟩

lemma expressingStep_facts (ag : Agents) (jump : String) (s : LoopState) :
    (∃ ev s', expressingStep ag jump s = (ev, Except.ok s') ∧ countMemAdd ev = 0 ∧
      s'.planning_result = s.planning_result ∧ s'.executing_result = s.executing_result ∧
      s'.reviewing_result = s.reviewing_result ∧ s'.loopResults = s.loopResults ∧
      s'.planningCount = s.planningCount ∧ s'.executingCount = s.executingCount ∧
      s'.reviewingCount = s.reviewingCount) ∨
    (∃ e, expressing_agent_run ag.expressing s.expressingCount = Except.error e ∧
      expressingStep ag jump s = ([Event.invoke Stage.expressing], Except.error e)) := by
  rcases expressingStep_cases ag jump s with h | ⟨e, hxe, h⟩ | ⟨r, hx, h⟩
  · exact Or.inl ⟨[], s, h, rfl, rfl, rfl, rfl, rfl, rfl, rfl, rfl⟩
  · exact Or.inr ⟨e, hxe, h⟩
  · exact Or.inl ⟨[Event.invoke Stage.expressing], _, h, rfl, rfl, rfl, rfl, rfl, rfl, rfl, rfl⟩

lemma getLast_concat_pair {l₁ l₂ : List Event} {a : Event} :
    (l₁ ++ (l₂ ++ [a])).getLast? = some a := by
  rw [← List.append_assoc]
  exact List.getLast?_concat _

/-- The three leading steps of a pass either all succeed, preserving
loopResults and the reviewing slot and counter and producing no memory event,
or one of them raises and the trace ends at the failing stage. -/
lemma stagesPhase_cases (ag : Agents) (jump : String) (inp : AgentInput) (s : LoopState) :
    (∃ ev s3, stagesPhase ag jump inp s = (ev, Except.ok s3) ∧ countMemAdd ev = 0 ∧
      s3.loopResults = s.loopResults ∧ s3.reviewing_result = s.reviewing_result ∧
      s3.reviewingCount = s.reviewingCount) ∨
    (∃ ev e, stagesPhase ag jump inp s = (ev, Except.error e) ∧ countMemAdd ev = 0 ∧
      (∃ st, ev.getLast? = some (Event.invoke st)) ∧
      (planning_agent_run ag.planning inp s.planningCount = Except.error e ∨
       executing_agent_run ag.executing s.executingCount = Except.error e ∨
       expressing_agent_run ag.expressing s.expressingCount = Except.error e)) := by
  rcases planningStep_facts ag jump inp s with
    ⟨ev1, s1, h1, hm1, hxr1, hpr1, hrr1, hlr1, hec1, hxc1, hrc1⟩ | ⟨e, hpe, h1⟩
  · rcases executingStep_facts ag jump s1 with
      ⟨ev2, s2, h2, hm2, hpl2, hxp2, hrr2, hlr2, hpc2, hxc2, hrc2⟩ | ⟨e, hee, h2⟩
    · rcases expressingStep_facts ag jump s2 with
        ⟨ev3, s3, h3, hm3, hpl3, hex3, hrr3, hlr3, hpc3, hec3, hrc3⟩ | ⟨e, hxe, h3⟩
      · refine Or.inl ⟨ev1 ++ ev2 ++ ev3, s3, ?_, ?_, ?_, ?_, ?_⟩
        · simp only [stagesPhase, h1, h2, h3]
        · unfold countMemAdd at *
          simp [List.countP_append, hm1, hm2, hm3]
        · rw [hlr3, hlr2, hlr1]
        · rw [hrr3, hrr2, hrr1]
        · rw [hrc3, hrc2, hrc1]
      · refine Or.inr ⟨ev1 ++ ev2 ++ [Event.invoke Stage.expressing], e, ?_, ?_, ?_, ?_⟩
        · simp only [stagesPhase, h1, h2, h3]
        · unfold countMemAdd at *
          simp [List.countP_append, hm1, hm2]
          rfl
        · exact ⟨Stage.expressing, by rw [List.append_assoc]; exact getLast_concat_pair⟩
        · rw [hxc2, hxc1] at hxe
          exact Or.inr (Or.inr hxe)
    · refine Or.inr ⟨ev1 ++ [Event.invoke Stage.executing], e, ?_, ?_, ?_, ?_⟩
      · simp only [stagesPhase, h1, h2]
      · unfold countMemAdd at *
        simp [List.countP_append, hm1]
        rfl
      · exact ⟨Stage.executing, List.getLast?_concat _⟩
      · rw [hec1] at hee
        exact Or.inr (Or.inl hee)
  · refine Or.inr ⟨[Event.invoke Stage.planning], e, ?_, rfl, ⟨Stage.planning, rfl⟩, Or.inl hpe⟩
    simp only [stagesPhase, h1]

lemma revCond_congr {jump : String} {s s' : LoopState}
    (h : s'.reviewing_result = s.reviewing_result) : revCond jump s' = revCond jump s := by
  unfold revCond
  rw [h]

/-- Master case analysis of one pass: either it raises (trace ending at the
failing stage, no memory event), or it continues with exactly one record
appended whenever the reviewing part was reached, or it returns from inside
the loop with exactly one record appended, and, when a reviewing agent is
present, an accepting score. -/
lemma runPass_cases (ag : Agents) (jump : String) (mem : Bool) (inp : AgentInput)
    (s : LoopState) :
    (∃ ev e, runPass ag jump mem inp s = PassResult.err ev e ∧ countMemAdd ev = 0 ∧
      ∃ st, ev.getLast? = some (Event.invoke st)) ∨
    (∃ ev s', runPass ag jump mem inp s = PassResult.next ev s' ∧ countMemAdd ev = 0 ∧
      (s'.loopResults.length = s.loopResults.length ∨
        s'.loopResults.length = s.loopResults.length + 1) ∧
      (revCond jump s = true → s'.loopResults.length = s.loopResults.length + 1)) ∨
    (∃ ev recs, runPass ag jump mem inp s = PassResult.ret ev recs ∧
      recs.length = s.loopResults.length + 1 ∧
      (∀ f, ag.reviewing = some f →
        ∃ r, f s.reviewingCount = Except.ok r ∧ scoreAccept r.score = true)) := by
  rcases stagesPhase_cases ag jump inp s with
    ⟨ev, s3, hS, hMem, hLoop, hRevres, hRevcnt⟩ | ⟨ev, e, hS, hMem, hLast, hErr⟩
  · rcases reviewPhase_cases ag jump mem inp s3 with
      ⟨hc, hR⟩ | ⟨hrev, hR⟩ | ⟨f, e, hrev, hf, hR⟩ | ⟨f, r, hrev, hf, hacc, hR⟩ |
      ⟨f, r, hrev, hf, hacc, hR⟩
    · refine Or.inr (Or.inl ⟨ev ++ [], s3, ?_, ?_, Or.inl (by rw [hLoop]), ?_⟩)
      · simp only [runPass, hS, hR]
      · unfold countMemAdd at *
        simp [List.countP_append, hMem]
      · intro hTrue
        rw [← revCond_congr hRevres] at hTrue
        rw [hc] at hTrue
        cases hTrue
    · refine Or.inr (Or.inr ⟨ev ++ (if mem then add_peer_memory mem inp s3.expressing_result else []),
        s3.loopResults ++ [⟨s3.planning_result, s3.executing_result, s3.expressing_result,
          s3.reviewing_result⟩], ?_, ?_, ?_⟩)
      · simp only [runPass, hS, hR]
      · simp [hLoop]
      · intro f hrevf
        rw [hrev] at hrevf
        cases hrevf
    · refine Or.inl ⟨ev ++ [Event.invoke Stage.reviewing], e, ?_, ?_, ?_⟩
      · simp only [runPass, hS, hR]
      · unfold countMemAdd at *
        simp [List.countP_append, hMem]
        rfl
      · exact ⟨Stage.reviewing, List.getLast?_concat _⟩
    · refine Or.inr (Or.inr ⟨ev ++ [Event.invoke Stage.reviewing],
        s3.loopResults ++ [⟨s3.planning_result, s3.executing_result, s3.expressing_result,
          some r⟩], ?_, ?_, ?_⟩)
      · simp only [runPass, hS, hR]
      · simp [hLoop]
      · intro f' hrevf'
        have hff : f = f' := by
          rw [hrev] at hrevf'
          exact Option.some.inj hrevf'
        subst hff
        rw [hRevcnt] at hf
        exact ⟨r, hf, hacc⟩
    · refine Or.inr (Or.inl ⟨ev ++ [Event.invoke Stage.reviewing],
        { s3 with reviewing_result := some r,
                  reviewingCount := s3.reviewingCount + 1,
                  loopResults := s3.loopResults ++
                    [⟨s3.planning_result, s3.executing_result, s3.expressing_result,
                      some r⟩] }, ?_, ?_, ?_, ?_⟩)
      · simp only [runPass, hS, hR]
      · unfold countMemAdd at *
        simp [List.countP_append, hMem]
        rfl
      · refine Or.inr ?_
        simp [hLoop]
      · intro hTrue
        simp [hLoop]
  · refine Or.inl ⟨ev, e, ?_, hMem, hLast⟩
    simp only [runPass, hS]

/-- With a schema-valid jump_step every completed pass appends exactly one
record, so a successful run of the remaining fuel yields at most fuel more
records, and exactly fuel more when the loop was never exited early. -/
lemma runLoop_ok_len (ag : Agents) (jump : String) (mem : Bool) (inp : AgentInput)
    (hjump : validJump jump) :
    ∀ (fuel : Nat) (s : LoopState) (recs : List IterationRecord),
      (runLoop ag jump mem inp fuel s).result = Except.ok recs →
      recs.length ≤ s.loopResults.length + fuel ∧
      ((runLoop ag jump mem inp fuel s).early = false →
        recs.length = s.loopResults.length + fuel) := by
  intro fuel
  induction fuel with
  | zero =>
    intro s recs h
    simp only [runLoop, Except.ok.injEq] at h
    subst h
    exact ⟨Nat.le_add_right _ _, fun _ => rfl⟩
  | succ n ih =>
    intro s recs h
    rcases runPass_cases ag jump mem inp s with
      ⟨ev, e, hp, _, _⟩ | ⟨ev, s', hp, _, _, hlen⟩ | ⟨ev, recs', hp, hlen, _⟩
    · rw [runLoop, hp] at h
      cases h
    · have hlen' := hlen (revCond_true_of_valid jump hjump s)
      rw [runLoop, hp] at h
      simp only at h
      have := ih s' recs h
      rw [runLoop, hp]
      simp only
      constructor
      · omega
      · intro hearly
        have := (ih s' recs h).2 hearly
        omega
    · rw [runLoop, hp] at h
      simp only [Except.ok.injEq] at h
      subst h
      rw [runLoop, hp]
      exact ⟨by omega, fun hearly => by cases hearly⟩

/-- If a pass raises, the loop's outcome is that error: the trace up to this
point holds no memory event and ends at the failing stage invocation. -/
lemma runLoop_err_events (ag : Agents) (jump : String) (mem : Bool) (inp : AgentInput) :
    ∀ (fuel : Nat) (s : LoopState) (e : String),
      (runLoop ag jump mem inp fuel s).result = Except.error e →
      countMemAdd (runLoop ag jump mem inp fuel s).events = 0 ∧
      ∃ st, (runLoop ag jump mem inp fuel s).events.getLast? = some (Event.invoke st) := by
  intro fuel
  induction fuel with
  | zero =>
    intro s e h
    simp only [runLoop] at h
    cases h
  | succ n ih =>
    intro s e h
    rcases runPass_cases ag jump mem inp s with
      ⟨ev, e', hp, hMem, hLast⟩ | ⟨ev, s', hp, hMem, _, _⟩ | ⟨ev, recs', hp, _, _⟩
    · rw [runLoop, hp] at h ⊢
      exact ⟨hMem, hLast⟩
    · rw [runLoop, hp] at h ⊢
      simp only at h ⊢
      obtain ⟨hm', st, hl'⟩ := ih s' e h
      refine ⟨?_, st, ?_⟩
      · unfold countMemAdd at *
        simp [List.countP_append, hMem, hm']
      · have hne : (runLoop ag jump mem inp n s').events ≠ [] := by
          intro hnil
          rw [hnil] at hl'
          cases hl'
        rw [List.getLast?_append_of_ne_nil _ hne]
        exact hl'
    · rw [runLoop, hp] at h
      cases h

/-- When all three leading wrappers succeed at the current counters, the
leading steps succeed, preserving the reviewing slot and counter. -/
lemma stagesPhase_ok_of (ag : Agents) (jump : String) (inp : AgentInput) (s : LoopState)
    (hp : ∃ rp, planning_agent_run ag.planning inp s.planningCount = Except.ok rp)
    (he : ∃ re, executing_agent_run ag.executing s.executingCount = Except.ok re)
    (hx : ∃ rx, expressing_agent_run ag.expressing s.expressingCount = Except.ok rx) :
    ∃ ev s3, stagesPhase ag jump inp s = (ev, Except.ok s3) ∧
      s3.reviewing_result = s.reviewing_result ∧ s3.reviewingCount = s.reviewingCount := by
  rcases stagesPhase_cases ag jump inp s with
    ⟨ev, s3, hS, _, _, hRr, hRc⟩ | ⟨ev, e, hS, _, _, hErr⟩
  · exact ⟨ev, s3, hS, hRr, hRc⟩
  · obtain ⟨rp, hp⟩ := hp
    obtain ⟨re, he⟩ := he
    obtain ⟨rx, hx⟩ := hx
    rcases hErr with h | h | h
    · rw [hp] at h
      cases h
    · rw [he] at h
      cases h
    · rw [hx] at h
      cases h

/-- C2: the loop's early-acceptance test compares the reviewer's score against
the fixed bound 100, never against the configured eval_threshold.  The parts:
the acceptance predicate holds exactly for a present, truthy score of at least
100; a score of 60 (the default eval_threshold) is not accepted; changing
eval_threshold never changes the outcome of agents_run; with a reviewing agent
a pass returns from inside the loop only with an accepting reviewer result;
and conversely a pass whose stages succeed and whose reviewer scores at least
100 does return from inside the loop. -/
theorem claim_c2_accept_bound_is_100 :
    (∀ sc : Option Int, scoreAccept sc = true ↔ ∃ v, sc = some v ∧ v ≠ 0 ∧ 100 ≤ v) ∧
    scoreAccept (some 60) = false ∧
    (∀ (ag : Agents) (cfg : PlannerConfig) (mem : Bool) (inp : AgentInput) (t : Int),
      agents_run ag { cfg with eval_threshold := t } mem inp = agents_run ag cfg mem inp) ∧
    (∀ (ag : Agents) (f : AgentBehavior) (jump : String) (mem : Bool) (inp : AgentInput)
      (s : LoopState) (evs : List Event) (recs : List IterationRecord),
      ag.reviewing = some f →
      runPass ag jump mem inp s = PassResult.ret evs recs →
      ∃ r, f s.reviewingCount = Except.ok r ∧ scoreAccept r.score = true) ∧
    (∀ (ag : Agents) (f : AgentBehavior) (jump : String) (mem : Bool) (inp : AgentInput)
      (s : LoopState) (r : StageResult),
      ag.reviewing = some f →
      revCond jump s = true →
      (∃ rp, planning_agent_run ag.planning inp s.planningCount = Except.ok rp) →
      (∃ re, executing_agent_run ag.executing s.executingCount = Except.ok re) →
      (∃ rx, expressing_agent_run ag.expressing s.expressingCount = Except.ok rx) →
      f s.reviewingCount = Except.ok r →
      scoreAccept r.score = true →
      ∃ evs recs, runPass ag jump mem inp s = PassResult.ret evs recs) := by
  refine ⟨?_, ?_, ?_, ?_, ?_⟩
  · intro sc
    cases sc with
    | none => simp [scoreAccept]
    | some v =>
      simp only [scoreAccept, Bool.and_eq_true, Bool.not_eq_true', beq_eq_false_iff_ne,
        decide_eq_true_eq, Option.some.injEq]
      constructor
      · rintro ⟨h0, h100⟩
        exact ⟨v, rfl, h0, h100⟩
      · rintro ⟨v', hv, h0, h100⟩
        cases hv
        exact ⟨h0, h100⟩
  · rfl
  · intro ag cfg mem inp t
    rfl
  · intro ag f jump mem inp s evs recs hrev hret
    rcases runPass_cases ag jump mem inp s with
      ⟨ev, e, hp, _, _⟩ | ⟨ev, s', hp, _, _, _⟩ | ⟨ev, recs', hp, _, hscore⟩
    · rw [hp] at hret
      cases hret
    · rw [hp] at hret
      cases hret
    · exact hscore f hrev
  · intro ag f jump mem inp s r hrev hcond hp he hx hf hacc
    obtain ⟨ev, s3, hS, hRr, hRc⟩ := stagesPhase_ok_of ag jump inp s hp he hx
    have hcond3 : revCond jump s3 = true := by
      rw [revCond_congr hRr]
      exact hcond
    rcases reviewPhase_cases ag jump mem inp s3 with
      ⟨hc, hR⟩ | ⟨hrev', hR⟩ | ⟨f', e, hrev', hf', hR⟩ | ⟨f', r', hrev', hf', hacc', hR⟩ |
      ⟨f', r', hrev', hf', hacc', hR⟩
    · rw [hcond3] at hc
      cases hc
    · rw [hrev] at hrev'
      cases hrev'
    · have hff : f = f' := by
        rw [hrev] at hrev'
        exact Option.some.inj hrev'
      subst hff
      rw [hRc, hf] at hf'
      cases hf'
    · refine ⟨ev ++ [Event.invoke Stage.reviewing],
        s3.loopResults ++ [⟨s3.planning_result, s3.executing_result,
          s3.expressing_result, some r'⟩], ?_⟩
      simp only [runPass, hS, hR]
    · have hff : f = f' := by
        rw [hrev] at hrev'
        exact Option.some.inj hrev'
      subst hff
      rw [hRc, hf] at hf'
      have hrr : r = r' := Except.ok.inj hf'
      subst hrr
      rw [hacc] at hacc'
      cases hacc'

def w2f : AgentBehavior := fun _ => Except.ok { score := some 100 }

def w2Ag : Agents := { reviewing := some w2f }

def w2Cfg : PlannerConfig := {}

/-- Witness for C2: with a reviewer scoring 100 the first pass returns from
inside the loop, and the result does not depend on eval_threshold. -/
theorem claim_c2_accept_bound_is_100_witness :
    (∃ evs recs, runPass w2Ag "expressing" false [] LoopState.init = PassResult.ret evs recs) ∧
    agents_run w2Ag { w2Cfg with eval_threshold := 0 } false [] =
      agents_run w2Ag w2Cfg false [] := by
  constructor
  · exact claim_c2_accept_bound_is_100.2.2.2.2 w2Ag w2f "expressing" false [] LoopState.init
      { score := some 100 } rfl rfl ⟨{}, rfl⟩ ⟨{}, rfl⟩ ⟨{}, rfl⟩ rfl (by decide)
  · exact claim_c2_accept_bound_is_100.2.2.1 w2Ag w2Cfg false [] 0

/-- C6: every invocation of add_peer_memory that reaches the memory
collaborator passes exactly two messages, the first with role human and
content equal to the request's input field, the second with role ai and
content equal to the final expressing result's output field. -/
theorem claim_c6_memory_messages (mem : Bool) (inp : AgentInput)
    (pres : Option StageResult) (msgs : List Message)
    (h : Event.memAdd msgs ∈ add_peer_memory mem inp pres) :
    msgs.length = 2 ∧ ∃ r, pres = some r ∧
      msgs = [{ type := Role.human, content := dictGet inp "input" },
              { type := Role.ai, content := r.output }] := by
  cases pres with
  | none => simp [add_peer_memory] at h
  | some r =>
    simp only [add_peer_memory] at h
    split at h
    · rw [List.mem_singleton] at h
      have hm := Event.memAdd.inj h
      subst hm
      exact ⟨rfl, r, rfl, rfl⟩
    · simp at h

def w6r : StageResult := { output := some "a" }

def w6msgs : List Message :=
  [{ type := Role.human, content := some "q" }, { type := Role.ai, content := some "a" }]

/-- Witness for C6 at a concrete invocation that reaches the collaborator. -/
theorem claim_c6_memory_messages_witness :
    w6msgs.length = 2 ∧ ∃ r, (some w6r : Option StageResult) = some r ∧
      w6msgs = [{ type := Role.human, content := dictGet [("input", "q")] "input" },
                { type := Role.ai, content := r.output }] :=
  claim_c6_memory_messages true [("input", "q")] (some w6r) w6msgs (by decide)

/-- C9: ChatMemory.get never mutates the stored message list: it prunes a copy
(`message_list[:]`), so the state after the call holds exactly the same
messages in the same order. -/
theorem claim_c9_get_preserves_messages (st : ChatMemoryState) :
    ((ChatMemory_get st).2).messages = st.messages := rfl

/-- The eviction loop returns the first suffix (by successive head removals)
whose token count fits the budget, provided the empty list fits the budget. -/
lemma pruneGo_spec (count : List Message → Nat) (maxT : Nat) (hempty : count [] ≤ maxT) :
    ∀ l : List Message, ∃ k, pruneGo count maxT l = some (List.drop k l) ∧
      count (List.drop k l) ≤ maxT ∧ ∀ j, j < k → maxT < count (List.drop j l) := by
  intro l
  induction l with
  | nil =>
    refine ⟨0, ?_, hempty, fun j hj => absurd hj (Nat.not_lt_zero j)⟩
    simp [pruneGo, hempty]
  | cons m t ih =>
    by_cases h : count (m :: t) ≤ maxT
    · refine ⟨0, ?_, h, fun j hj => absurd hj (Nat.not_lt_zero j)⟩
      simp [pruneGo, h]
    · obtain ⟨k, hgo, hle, hgt⟩ := ih
      refine ⟨k + 1, ?_, ?_, ?_⟩
      · simp [pruneGo, h, List.drop_succ_cons, hgo]
      · rw [List.drop_succ_cons]
        exact hle
      · intro j hj
        cases j with
        | zero => simpa using Nat.lt_of_not_le h
        | succ j' =>
          rw [List.drop_succ_cons]
          exact hgt j' (Nat.lt_of_succ_lt_succ hj)

/-- C10: the eviction loop is total exactly under the precondition that the
token count of the empty list fits the budget; without that precondition there
is an over-budget input on which the loop pops from an empty list (the
unguarded IndexError, modelled as none). -/
theorem claim_c10_prune_totality :
    (∀ (llm : Option (List Message → Nat)) (maxT : Nat) (l : List Message),
      (∀ count, llm = some count → count [] ≤ maxT) →
      (prune llm maxT l).isSome = true) ∧
    prune (some (fun _ => 1)) 0 [{ type := Role.human, content := none }] = none := by
  constructor
  · intro llm maxT l hempty
    cases llm with
    | none =>
      simp only [prune]
      split
      · rfl
      · rfl
    | some count =>
      simp only [prune]
      split
      · rfl
      · split
        · obtain ⟨k, hgo, _, _⟩ := pruneGo_spec count maxT (hempty count rfl) l
          rw [hgo]
          rfl
        · rfl
  · rfl

/-- Witness for C10's totality part at a concrete token counter. -/
theorem claim_c10_prune_totality_witness :
    (prune (some (fun _ => 0)) 0 [{ type := Role.human, content := none }]).isSome = true :=
  claim_c10_prune_totality.1 (some (fun _ => 0)) 0 [{ type := Role.human, content := none }]
    (fun count h => by cases h; exact Nat.le_refl 0)

/-- C8: prune evicts oldest first.  The result is always a head-drop suffix of
the input; with no llm, or within budget, the input comes back unchanged; over
budget, heads are dropped one at a time exactly until the remaining suffix
fits, every longer suffix having been over budget.  The precondition is the
one C10 shows necessary. -/
theorem claim_c8_prune_fifo (llm : Option (List Message → Nat)) (maxT : Nat)
    (l : List Message)
    (hempty : ∀ count, llm = some count → count [] ≤ maxT) :
    ∃ l', prune llm maxT l = some l' ∧ (∃ k, l' = List.drop k l) ∧
      (llm = none → l' = l) ∧
      (∀ count, llm = some count →
        (maxT < count l → count l' ≤ maxT ∧
          ∃ k, l' = List.drop k l ∧ ∀ j, j < k → maxT < count (List.drop j l)) ∧
        (¬ maxT < count l → l' = l)) := by
  cases llm with
  | none =>
    simp only [prune]
    split
    · rename_i hl
      have hnil : l = [] := by
        cases l with
        | nil => rfl
        | cons a t => simp at hl
      subst hnil
      exact ⟨[], rfl, ⟨0, rfl⟩, fun _ => rfl, fun count hc => Option.noConfusion hc⟩
    · exact ⟨l, rfl, ⟨0, rfl⟩, fun _ => rfl, fun count hc => Option.noConfusion hc⟩
  | some count =>
    simp only [prune]
    split
    · rename_i hl
      have hnil : l = [] := by
        cases l with
        | nil => rfl
        | cons a t => simp at hl
      subst hnil
      refine ⟨[], rfl, ⟨0, rfl⟩, fun hn => Option.noConfusion hn, ?_⟩
      intro count' hc'
      have hcc : count = count' := Option.some.inj hc'
      subst hcc
      constructor
      · intro hover
        exact absurd hover (Nat.not_lt.mpr (hempty count rfl))
      · intro _
        rfl
    · split
      · rename_i hover
        obtain ⟨k, hgo, hle, hgt⟩ := pruneGo_spec count maxT (hempty count rfl) l
        refine ⟨List.drop k l, hgo, ⟨k, rfl⟩, fun hn => Option.noConfusion hn, ?_⟩
        intro count' hc'
        have hcc : count = count' := Option.some.inj hc'
        subst hcc
        exact ⟨fun _ => ⟨hle, k, rfl, hgt⟩, fun hn => absurd hover hn⟩
      · rename_i hnot
        refine ⟨l, rfl, ⟨0, rfl⟩, fun hn => Option.noConfusion hn, ?_⟩
        intro count' hc'
        have hcc : count = count' := Option.some.inj hc'
        subst hcc
        exact ⟨fun hover => absurd hover hnot, fun _ => rfl⟩

def w8m : Message := { type := Role.human, content := some "hello" }

/-- Witness for C8 at a concrete over-budget input (token count = list
length, budget 1, two messages). -/
theorem claim_c8_prune_fifo_witness :
    ∃ l', prune (some (fun ms => ms.length)) 1 [w8m, w8m] = some l' ∧
      (∃ k, l' = List.drop k [w8m, w8m]) ∧
      ((some (fun ms : List Message => ms.length) : Option (List Message → Nat)) = none →
        l' = [w8m, w8m]) ∧
      (∀ count, (some (fun ms : List Message => ms.length) :
          Option (List Message → Nat)) = some count →
        (1 < count [w8m, w8m] → count l' ≤ 1 ∧
          ∃ k, l' = List.drop k [w8m, w8m] ∧
            ∀ j, j < k → 1 < count (List.drop j [w8m, w8m])) ∧
        (¬ 1 < count [w8m, w8m] → l' = [w8m, w8m])) :=
  claim_c8_prune_fifo (some (fun ms => ms.length)) 1 [w8m, w8m]
    (fun count h => by cases h; exact Nat.zero_le 1)

/-- C3: with no reviewing agent resolved, a run whose first-pass wrappers
succeed executes planning, executing and expressing exactly once, never runs
the reviewing stage, returns exactly one IterationRecord regardless of
retry_count >= 1, and the memory collaborator's add is called exactly once
when a memory collaborator is configured (the guard also needs the planner
input dict truthy, which every run with an input field satisfies). -/
theorem claim_c3_no_reviewer (ag : Agents) (cfg : PlannerConfig) (mem : Bool)
    (inp : AgentInput)
    (hrev : ag.reviewing = none) (hr : 1 ≤ cfg.retry_count) (hinp : inp ≠ [])
    (hp : ∃ rp, planning_agent_run ag.planning inp 0 = Except.ok rp)
    (he : ∃ re, executing_agent_run ag.executing 0 = Except.ok re)
    (hx : ∃ rx, expressing_agent_run ag.expressing 0 = Except.ok rx) :
    ∃ record, (agents_run ag cfg mem inp).result = Except.ok [record] ∧
      countStage (agents_run ag cfg mem inp).events Stage.planning = 1 ∧
      countStage (agents_run ag cfg mem inp).events Stage.executing = 1 ∧
      countStage (agents_run ag cfg mem inp).events Stage.expressing = 1 ∧
      countStage (agents_run ag cfg mem inp).events Stage.reviewing = 0 ∧
      countMemAdd (agents_run ag cfg mem inp).events = (if mem then 1 else 0) := by
  obtain ⟨rp, hp⟩ := hp
  obtain ⟨re, he⟩ := he
  obtain ⟨rx, hx⟩ := hx
  have hinp' : inp.isEmpty = false := by
    cases inp with
    | nil => exact absurd rfl hinp
    | cons a t => rfl
  obtain ⟨n, hn⟩ : ∃ n, cfg.retry_count = n + 1 := ⟨cfg.retry_count - 1, by omega⟩
  cases mem with
  | false =>
    have hpass : runPass ag cfg.jump_step false inp LoopState.init =
        PassResult.ret [Event.invoke Stage.planning, Event.invoke Stage.executing,
          Event.invoke Stage.expressing] [⟨some rp, some re, some rx, none⟩] := by
      simp [runPass, stagesPhase, planningStep, executingStep, expressingStep, reviewPhase,
        LoopState.init, hp, he, hx, hrev]
    refine ⟨⟨some rp, some re, some rx, none⟩, ?_, ?_, ?_, ?_, ?_, ?_⟩ <;>
      simp only [agents_run, hn, runLoop, hpass] <;> rfl
  | true =>
    have hpass : runPass ag cfg.jump_step true inp LoopState.init =
        PassResult.ret [Event.invoke Stage.planning, Event.invoke Stage.executing,
          Event.invoke Stage.expressing,
          Event.memAdd [{ type := Role.human, content := dictGet inp "input" },
                        { type := Role.ai, content := rx.output }]]
          [⟨some rp, some re, some rx, none⟩] := by
      simp [runPass, stagesPhase, planningStep, executingStep, expressingStep, reviewPhase,
        add_peer_memory, LoopState.init, hp, he, hx, hrev, hinp']
    refine ⟨⟨some rp, some re, some rx, none⟩, ?_, ?_, ?_, ?_, ?_, ?_⟩ <;>
      simp only [agents_run, hn, runLoop, hpass] <;> rfl

def w3Ag : Agents := { expressing := some (fun _ => Except.ok { output := some "out" }) }

def w3Cfg : PlannerConfig := { retry_count := 3 }

/-- Witness for C3 at a concrete run without a reviewer. -/
theorem claim_c3_no_reviewer_witness :
    ∃ record, (agents_run w3Ag w3Cfg true [("input", "q")]).result = Except.ok [record] ∧
      countStage (agents_run w3Ag w3Cfg true [("input", "q")]).events Stage.planning = 1 ∧
      countStage (agents_run w3Ag w3Cfg true [("input", "q")]).events Stage.executing = 1 ∧
      countStage (agents_run w3Ag w3Cfg true [("input", "q")]).events Stage.expressing = 1 ∧
      countStage (agents_run w3Ag w3Cfg true [("input", "q")]).events Stage.reviewing = 0 ∧
      countMemAdd (agents_run w3Ag w3Cfg true [("input", "q")]).events =
        (if true then 1 else 0) :=
  claim_c3_no_reviewer w3Ag w3Cfg true [("input", "q")] rfl (by decide) (by decide)
    ⟨{}, rfl⟩ ⟨{}, rfl⟩ ⟨{ output := some "out" }, rfl⟩

/-- C7: an exception raised by a sub-agent propagates out of agents_run
uncaught.  The parts: an erroneous run ends with the failing stage invocation
as its last event and performs no memory add; a pass that raises makes the
whole loop return exactly that error; and concretely an executing agent whose
run raises on the first pass makes agents_run return that error (no record
list). -/
theorem claim_c7_exception_propagates :
    (∀ (ag : Agents) (cfg : PlannerConfig) (mem : Bool) (inp : AgentInput) (e : String),
      (agents_run ag cfg mem inp).result = Except.error e →
      countMemAdd (agents_run ag cfg mem inp).events = 0 ∧
      ∃ st, (agents_run ag cfg mem inp).events.getLast? = some (Event.invoke st)) ∧
    (∀ (ag : Agents) (jump : String) (mem : Bool) (inp : AgentInput) (s : LoopState)
      (n : Nat) (evs : List Event) (e : String),
      runPass ag jump mem inp s = PassResult.err evs e →
      (runLoop ag jump mem inp (n + 1) s).result = Except.error e ∧
      (runLoop ag jump mem inp (n + 1) s).events = evs) ∧
    (∀ (ag : Agents) (cfg : PlannerConfig) (mem : Bool) (inp : AgentInput)
      (f : AgentBehavior) (e : String),
      ag.executing = some f → f 0 = Except.error e → 1 ≤ cfg.retry_count →
      (∃ rp, planning_agent_run ag.planning inp 0 = Except.ok rp) →
      (agents_run ag cfg mem inp).result = Except.error e) := by
  refine ⟨?_, ?_, ?_⟩
  · intro ag cfg mem inp e h
    exact runLoop_err_events ag cfg.jump_step mem inp cfg.retry_count LoopState.init e h
  · intro ag jump mem inp s n evs e h
    constructor <;> simp only [runLoop, h]
  · intro ag cfg mem inp f e hex hf0 hr hp
    obtain ⟨rp, hp⟩ := hp
    obtain ⟨n, hn⟩ : ∃ n, cfg.retry_count = n + 1 := ⟨cfg.retry_count - 1, by omega⟩
    have hexec : executing_agent_run ag.executing 0 = Except.error e := by
      rw [hex]
      exact hf0
    have hpass : runPass ag cfg.jump_step mem inp LoopState.init =
        PassResult.err [Event.invoke Stage.planning, Event.invoke Stage.executing] e := by
      simp [runPass, stagesPhase, planningStep, executingStep, LoopState.init, hp, hexec]
    simp only [agents_run, hn, runLoop, hpass]

def w7Ag : Agents := { executing := some (fun _ => Except.error "boom") }

def w7Cfg : PlannerConfig := {}

/-- Witness for C7: a raising executing agent aborts the run with its error. -/
theorem claim_c7_exception_propagates_witness :
    (agents_run w7Ag w7Cfg false []).result = Except.error "boom" :=
  claim_c7_exception_propagates.2.2 w7Ag w7Cfg false [] (fun _ => Except.error "boom")
    "boom" rfl rfl (by decide) ⟨{}, rfl⟩

def c4Agents : Agents := { reviewing := some (fun _ => Except.ok { score := some 100 }) }

def c4Cfg : PlannerConfig := { retry_count := 1 }

/-- Counterexample to C4 as stated: with retry_count = 1 and a reviewer
accepting on pass 1, an early-termination rule fires (the run returns from
inside the loop, early = true) and yet the result list length equals
retry_count, refuting "length equals r exactly when no early-termination rule
fired". -/
theorem claim_c4_counterexample :
    (agents_run c4Agents c4Cfg false []).early = true ∧
    (agents_run c4Agents c4Cfg false []).result =
      Except.ok [⟨some {}, some {}, some {}, some { score := some 100 }⟩] ∧
    c4Cfg.retry_count = 1 :=
  ⟨rfl, rfl, rfl⟩

/-- C4 amended: for a schema-valid jump_step, a successful run returns at most
retry_count records, and exactly retry_count whenever no early-termination
rule fired; early termination on the final pass can also yield exactly
retry_count records, so the converse fails. -/
theorem claim_c4_amended (ag : Agents) (cfg : PlannerConfig) (mem : Bool)
    (inp : AgentInput) (hjump : validJump cfg.jump_step) (recs : List IterationRecord)
    (h : (agents_run ag cfg mem inp).result = Except.ok recs) :
    recs.length ≤ cfg.retry_count ∧
    ((agents_run ag cfg mem inp).early = false → recs.length = cfg.retry_count) := by
  have hlen := runLoop_ok_len ag cfg.jump_step mem inp hjump cfg.retry_count
    LoopState.init recs h
  simpa [agents_run, LoopState.init] using hlen

def w4Ag : Agents := { reviewing := some (fun _ => Except.ok { score := some 10 }) }

def w4Cfg : PlannerConfig := { retry_count := 2 }

def w4rec : IterationRecord := ⟨some {}, some {}, some {}, some { score := some 10 }⟩

/-- Witness for C4 amended: a never-accepting reviewer exhausts both passes. -/
theorem claim_c4_amended_witness :
    [w4rec, w4rec].length ≤ w4Cfg.retry_count ∧
    ((agents_run w4Ag w4Cfg false []).early = false →
      [w4rec, w4rec].length = w4Cfg.retry_count) :=
  claim_c4_amended w4Ag w4Cfg false [] (Or.inr (Or.inr (Or.inl rfl))) [w4rec, w4rec] rfl

/-- C5: with jump_step = "executing" and a reviewer rejecting pass 1, pass 2
does not re-invoke the planning stage and records the very same planning
result as pass 1, while the executing, expressing and reviewing stages are
re-invoked (at invocation index 1). -/
theorem claim_c5_jump_executing (ag : Agents) (mem : Bool) (inp : AgentInput)
    (f : AgentBehavior) (rp re0 re1 rx0 rx1 r0 r1 : StageResult)
    (hp : planning_agent_run ag.planning inp 0 = Except.ok rp)
    (he0 : executing_agent_run ag.executing 0 = Except.ok re0)
    (he1 : executing_agent_run ag.executing 1 = Except.ok re1)
    (hx0 : expressing_agent_run ag.expressing 0 = Except.ok rx0)
    (hx1 : expressing_agent_run ag.expressing 1 = Except.ok rx1)
    (hrev : ag.reviewing = some f)
    (hf0 : f 0 = Except.ok r0)
    (hf1 : f 1 = Except.ok r1)
    (hnoacc : scoreAccept r0.score = false) :
    ∃ ev1 s1, runPass ag "executing" mem inp LoopState.init = PassResult.next ev1 s1 ∧
      countStage ev1 Stage.planning = 1 ∧ countStage ev1 Stage.executing = 1 ∧
      countStage ev1 Stage.expressing = 1 ∧ countStage ev1 Stage.reviewing = 1 ∧
      s1.loopResults = [⟨some rp, some re0, some rx0, some r0⟩] ∧
      countStage (runPass ag "executing" mem inp s1).events Stage.planning = 0 ∧
      countStage (runPass ag "executing" mem inp s1).events Stage.executing = 1 ∧
      countStage (runPass ag "executing" mem inp s1).events Stage.expressing = 1 ∧
      countStage (runPass ag "executing" mem inp s1).events Stage.reviewing = 1 ∧
      (runPass ag "executing" mem inp s1).records =
        some [⟨some rp, some re0, some rx0, some r0⟩,
              ⟨some rp, some re1, some rx1, some r1⟩] := by
  have hpass1 : runPass ag "executing" mem inp LoopState.init = PassResult.next
      [Event.invoke Stage.planning, Event.invoke Stage.executing,
        Event.invoke Stage.expressing, Event.invoke Stage.reviewing]
      ⟨some rp, some re0, some rx0, some r0,
        [⟨some rp, some re0, some rx0, some r0⟩], 1, 1, 1, 1⟩ := by
    simp [runPass, stagesPhase, planningStep, executingStep, expressingStep, reviewPhase,
      LoopState.init, hp, he0, hx0, hrev, hf0, hnoacc]
  by_cases hacc1 : scoreAccept r1.score = true
  · have hpass2 : runPass ag "executing" mem inp
        ⟨some rp, some re0, some rx0, some r0,
          [⟨some rp, some re0, some rx0, some r0⟩], 1, 1, 1, 1⟩ =
        PassResult.ret [Event.invoke Stage.executing, Event.invoke Stage.expressing,
          Event.invoke Stage.reviewing]
          [⟨some rp, some re0, some rx0, some r0⟩,
            ⟨some rp, some re1, some rx1, some r1⟩] := by
      simp [runPass, stagesPhase, planningStep, executingStep, expressingStep, reviewPhase,
        he1, hx1, hrev, hf1, hacc1]
    refine ⟨_, _, hpass1, rfl, rfl, rfl, rfl, rfl, ?_, ?_, ?_, ?_, ?_⟩ <;>
      rw [hpass2] <;> rfl
  · have hpass2 : runPass ag "executing" mem inp
        ⟨some rp, some re0, some rx0, some r0,
          [⟨some rp, some re0, some rx0, some r0⟩], 1, 1, 1, 1⟩ =
        PassResult.next [Event.invoke Stage.executing, Event.invoke Stage.expressing,
          Event.invoke Stage.reviewing]
          ⟨some rp, some re1, some rx1, some r1,
            [⟨some rp, some re0, some rx0, some r0⟩,
              ⟨some rp, some re1, some rx1, some r1⟩], 1, 2, 2, 2⟩ := by
      simp [runPass, stagesPhase, planningStep, executingStep, expressingStep, reviewPhase,
        he1, hx1, hrev, hf1, hacc1]
    refine ⟨_, _, hpass1, rfl, rfl, rfl, rfl, rfl, ?_, ?_, ?_, ?_, ?_⟩ <;>
      rw [hpass2] <;> rfl

def w5exec : AgentBehavior := fun n => Except.ok { payload := n }

def w5expr : AgentBehavior := fun n => Except.ok { output := some "o", payload := n }

def w5f : AgentBehavior := fun n => Except.ok { score := some (Int.ofNat n) }

def w5Ag : Agents :=
  { executing := some w5exec, expressing := some w5expr, reviewing := some w5f }

/-- Witness for C5 at concrete behaviours whose results differ per invocation. -/
theorem claim_c5_jump_executing_witness :
    ∃ ev1 s1, runPass w5Ag "executing" false [] LoopState.init = PassResult.next ev1 s1 ∧
      countStage ev1 Stage.planning = 1 ∧ countStage ev1 Stage.executing = 1 ∧
      countStage ev1 Stage.expressing = 1 ∧ countStage ev1 Stage.reviewing = 1 ∧
      s1.loopResults = [⟨some {}, some { payload := 0 },
        some { output := some "o", payload := 0 }, some { score := some (Int.ofNat 0) }⟩] ∧
      countStage (runPass w5Ag "executing" false [] s1).events Stage.planning = 0 ∧
      countStage (runPass w5Ag "executing" false [] s1).events Stage.executing = 1 ∧
      countStage (runPass w5Ag "executing" false [] s1).events Stage.expressing = 1 ∧
      countStage (runPass w5Ag "executing" false [] s1).events Stage.reviewing = 1 ∧
      (runPass w5Ag "executing" false [] s1).records =
        some [⟨some {}, some { payload := 0 }, some { output := some "o", payload := 0 },
                some { score := some (Int.ofNat 0) }⟩,
              ⟨some {}, some { payload := 1 }, some { output := some "o", payload := 1 },
                some { score := some (Int.ofNat 1) }⟩] :=
  claim_c5_jump_executing w5Ag false [] w5f {} { payload := 0 } { payload := 1 }
    { output := some "o", payload := 0 } { output := some "o", payload := 1 }
    { score := some (Int.ofNat 0) } { score := some (Int.ofNat 1) }
    rfl rfl rfl rfl rfl rfl rfl rfl (by decide)

def c1Reviewer : AgentBehavior :=
  fun n => Except.ok { score := some (if n == 0 then 55 else 100) }

def c1Agents : Agents :=
  { expressing := some (fun _ => Except.ok { output := some "ans" }),
    reviewing := some c1Reviewer }

def c1Cfg : PlannerConfig := { retry_count := 2, jump_step := "reviewing", eval_threshold := 60 }

def c1Input : AgentInput := [("input", "q")]

/-- Counterexample to C1 as stated: in the scenario (retry_count 2, jump_step
"reviewing", eval_threshold 60, reviewer scoring 55 then 100, memory
configured, input present) the result list has length 2 but no call ever
reaches the memory collaborator's add: the accepting-score return path (line
165) returns before the memory step. -/
theorem claim_c1_counterexample :
    countMemAdd (agents_run c1Agents c1Cfg true c1Input).events = 0 ∧
    (agents_run c1Agents c1Cfg true c1Input).result =
      Except.ok [⟨some {}, some {}, some { output := some "ans" }, some { score := some 55 }⟩,
                 ⟨some {}, some {}, some { output := some "ans" }, some { score := some 100 }⟩] :=
  ⟨rfl, rfl⟩

/-- C1 amended: in the scenario, agents_run returns a result list of length 2,
the loop stops after pass 2 via the accepting-score return (the reviewing
stage runs exactly twice and the run ends early), and memory is NOT persisted:
the accepting-score path returns without invoking the memory collaborator. -/
theorem claim_c1_amended :
    (agents_run c1Agents c1Cfg true c1Input).result =
      Except.ok [⟨some {}, some {}, some { output := some "ans" }, some { score := some 55 }⟩,
                 ⟨some {}, some {}, some { output := some "ans" }, some { score := some 100 }⟩] ∧
    (agents_run c1Agents c1Cfg true c1Input).early = true ∧
    countStage (agents_run c1Agents c1Cfg true c1Input).events Stage.reviewing = 2 ∧
    countStage (agents_run c1Agents c1Cfg true c1Input).events Stage.expressing = 1 ∧
    countMemAdd (agents_run c1Agents c1Cfg true c1Input).events = 0 :=
  ⟨rfl, rfl, rfl, rfl, rfl⟩

end AgentUniverse
